import Mathlib

/-!
A shallow embedding of the library-catalog application in `src/app.py`.

Dates are modelled as integers (days since an arbitrary epoch): the code
stores dates as `YYYY-MM-DD` strings and computes with `datetime.date`
values, whose subtraction yields a whole number of days, so calendar
dates embed faithfully as `Int` with `+ 14` for `timedelta(days=14)`.
Each operation takes the current date `today : Int` as an explicit
parameter, standing for the single `datetime.now().date()` reading of a
request.  SQLite rowids are modelled by explicit `next…Id` counters.
Form values arrive as raw strings and are `.strip()`-ed and parsed with
`int(...)` exactly as in the code.
-/

/-- ASCII whitespace stripped by Python's `str.strip()` (the non-ASCII
whitespace Python also strips is irrelevant to the form values here). -/
def isSpaceChar (c : Char) : Bool :=
  c = ' ' || c = '\t' || c = '\n' || c = '\r' || c = '\x0b' || c = '\x0c'

/-- Python's `str.strip()`: drop leading and trailing whitespace. -/
def strip (s : String) : String :=
  String.mk ((((s.toList).dropWhile isSpaceChar).reverse.dropWhile isSpaceChar).reverse)

/-- Helper for `parseInt`: a non-empty all-digit list read in base 10. -/
def parseDigits (l : List Char) : Option Nat :=
  if l ≠ [] ∧ l.all (·.isDigit) then
    some (l.foldl (fun acc c => 10 * acc + (c.toNat - 48)) 0)
  else none

/-- Python's `int(...)` applied to an already-stripped string: an optional
sign followed by decimal digits (digit-group underscores, which no claim
exercises, are not accepted). `none` models the `ValueError`. -/
def parseInt (s : String) : Option Int :=
  match s.toList with
  | '-' :: rest => (parseDigits rest).map (fun n => -(n : Int))
  | '+' :: rest => (parseDigits rest).map (fun n => (n : Int))
  | l => (parseDigits l).map (fun n => (n : Int))

/-- SQLite's `LOWER`: ASCII-only lower-casing, applied codepoint-wise. -/
def asciiLower (c : Char) : Char :=
  if 65 ≤ c.toNat ∧ c.toNat ≤ 90 then Char.ofNat (c.toNat + 32) else c

/-- A string as its list of `LOWER`-cased characters. -/
def lowerList (s : String) : List Char :=
  s.toList.map asciiLower

/-- Byte-order comparison of (lower-cased) character lists: the order SQLite's
`ORDER BY … COLLATE NOCASE ASC` uses (UTF-8 byte order coincides with
codepoint order). -/
def lexLE : List Char → List Char → Bool
  | [], _ => true
  | _ :: _, [] => false
  | a :: as, b :: bs => a.toNat < b.toNat || (a.toNat = b.toNat && lexLE as bs)

/-- SQLite `LIKE` matching on already lower-cased text: `%` matches any
(possibly empty) sequence, `_` matches exactly one character, anything else
matches itself. -/
def likeMatch : List Char → List Char → Bool
  | [], s => s.isEmpty
  | c :: ps, s =>
    if c = '%' then (s.tails).any (fun t => likeMatch ps t)
    else
      match s with
      | [] => false
      | d :: s' => (if c = '_' then true else c == d) && likeMatch ps s'

/-- Flat daily fine rate (₹): `FINE_RATE = 5` in `src/app.py`. -/
def FINE_RATE : Int := 5

/-- The `calculate_fine` helper (identical local function in `return_book` and
`list_loans`): `(days_late, fine_amount)` from the due date and today. -/
def calculate_fine (today due_date : Int) : Int × Int :=
  let days_late := max (today - due_date) 0
  let fine_amount := days_late * FINE_RATE
  (days_late, fine_amount)

/-- A row of the `books` table. -/
structure Book where
  id : Int
  title : String
  author : String
  isbn : String
  total_copies : Int
  available_copies : Int
deriving DecidableEq

/-- A row of the `users` table. -/
structure User where
  id : Int
  name : String
  email : String
deriving DecidableEq

/-- A row of the `loans` table; `return_date = none` is an active loan. -/
structure Loan where
  id : Int
  user_id : Int
  book_id : Int
  borrow_date : Int
  due_date : Int
  return_date : Option Int
deriving DecidableEq

/-- The database: the three tables plus the rowid counters SQLite keeps. -/
structure State where
  books : List Book
  users : List User
  loans : List Loan
  nextBookId : Int
  nextUserId : Int
  nextLoanId : Int
deriving DecidableEq

/-- The empty database; SQLite rowids start at 1. -/
def initState : State := ⟨[], [], [], 1, 1, 1⟩

/-- The query `SELECT … FROM books WHERE id = ?` followed by `fetchone()`. -/
def getBook (st : State) (book_id : Int) : Option Book :=
  st.books.find? (fun b => b.id == book_id)

/-- The query `SELECT … FROM loans WHERE id = ?` followed by `fetchone()`. -/
def getLoan (st : State) (loan_id : Int) : Option Loan :=
  st.loans.find? (fun l => l.id == loan_id)

/-- The query `SELECT … FROM loans WHERE id = ? AND return_date IS NULL` of `return_book`. -/
def findActiveLoan (st : State) (loan_id : Int) : Option Loan :=
  st.loans.find? (fun l => l.id == loan_id && l.return_date == none)

/-- The query `SELECT id FROM loans WHERE user_id = ? AND book_id = ? AND return_date IS
NULL` (the duplicate-loan check in `borrow`). -/
def findActivePair (st : State) (user_id book_id : Int) : Option Loan :=
  st.loans.find? (fun l =>
    l.user_id == user_id && l.book_id == book_id && l.return_date == none)

/-- Number of active loans of a given book. -/
def countActive (loans : List Loan) (book_id : Int) : Nat :=
  (loans.filter (fun l => l.book_id == book_id && l.return_date == none)).length

/-- Outcome of the `add_book` POST handler (spec taxonomy names). -/
inductive AddBookOutcome where
  | validationError
  | conflictError
  | success
deriving DecidableEq

/-- The `add_book` POST handler of `src/app.py`: every field required,
`total_copies` must parse as a positive integer, the `UNIQUE` constraint on
`isbn` rejects duplicates; on success a book is inserted with
`available_copies = total_copies`. -/
def add_book (st : State) (title author isbn total_copies : String) :
    State × AddBookOutcome :=
  let title := strip title
  let author := strip author
  let isbn := strip isbn
  let total_copies := strip total_copies
  if title = "" || author = "" || isbn = "" || total_copies = "" then
    (st, .validationError)
  else
    match parseInt total_copies with
    | none => (st, .validationError)
    | some n =>
      if n ≤ 0 then (st, .validationError)
      else if st.books.any (fun b => b.isbn == isbn) then (st, .conflictError)
      else
        ({ st with
            books := st.books ++ [⟨st.nextBookId, title, author, isbn, n, n⟩],
            nextBookId := st.nextBookId + 1 },
         .success)

/-- Outcome of the `add_user` POST handler. -/
inductive AddUserOutcome where
  | validationError
  | conflictError
  | success
deriving DecidableEq

/-- The `add_user` POST handler: both fields required, `UNIQUE` email. -/
def add_user (st : State) (name email : String) : State × AddUserOutcome :=
  let name := strip name
  let email := strip email
  if name = "" || email = "" then (st, .validationError)
  else if st.users.any (fun u => u.email == email) then (st, .conflictError)
  else
    ({ st with
        users := st.users ++ [⟨st.nextUserId, name, email⟩],
        nextUserId := st.nextUserId + 1 },
     .success)

/-- Outcome of the `borrow` POST handler.  `validationError` covers both
"Please select both a user and a book." and "Invalid user or book
selection."; `notAvailable` is "This book is no longer available."
(raised both when the book row is missing and when no copies are left);
`duplicateLoan` is "This user has already borrowed this book …". -/
inductive BorrowOutcome where
  | validationError
  | notAvailable
  | duplicateLoan
  | success (due_date : Int)
deriving DecidableEq

/-- The `borrow` POST handler of `src/app.py`: presence and `int(...)`
validation, availability re-check, duplicate-active-loan check, then the
loan insert (borrow date today, due date today + 14, `return_date` NULL)
and the `available_copies` decrement. -/
def borrow (st : State) (user_id_raw book_id_raw : String) (today : Int) :
    State × BorrowOutcome :=
  let u := strip user_id_raw
  let b := strip book_id_raw
  if u = "" || b = "" then (st, .validationError)
  else
    match parseInt u, parseInt b with
    | some user_id, some book_id =>
      match getBook st book_id with
      | none => (st, .notAvailable)
      | some book =>
        if book.available_copies ≤ 0 then (st, .notAvailable)
        else
          match findActivePair st user_id book_id with
          | some _ => (st, .duplicateLoan)
          | none =>
            let borrow_date := today
            let due_date := today + 14
            ({ st with
                loans := st.loans ++
                  [⟨st.nextLoanId, user_id, book_id, borrow_date, due_date, none⟩],
                books := st.books.map (fun bk =>
                  if bk.id == book_id then
                    { bk with available_copies := bk.available_copies - 1 }
                  else bk),
                nextLoanId := st.nextLoanId + 1 },
             .success due_date)
    | _, _ => (st, .validationError)

/-- Outcome of the `return` POST handler. `validationError` covers "Please
select a loan to return." and "Invalid loan selection."; `notFound` is
"That loan is not active or does not exist." -/
inductive ReturnOutcome where
  | validationError
  | notFound
  | success (days_late fine_amount : Int)
deriving DecidableEq

/-- The `return_book` POST handler of `src/app.py`: loan id validation,
active-loan lookup, then `return_date := today`, the `available_copies`
increment for the loan's book, and the fine computed from the due date. -/
def return_book (st : State) (loan_id_raw : String) (today : Int) :
    State × ReturnOutcome :=
  let raw := strip loan_id_raw
  if raw = "" then (st, .validationError)
  else
    match parseInt raw with
    | none => (st, .validationError)
    | some loan_id =>
      match findActiveLoan st loan_id with
      | none => (st, .notFound)
      | some loan_row =>
        let fine := calculate_fine today loan_row.due_date
        ({ st with
            loans := st.loans.map (fun l =>
              if l.id == loan_id then { l with return_date := some today } else l),
            books := st.books.map (fun bk =>
              if bk.id == loan_row.book_id then
                { bk with available_copies := bk.available_copies + 1 }
              else bk) },
         .success fine.1 fine.2)

/-- The clause `WHERE LOWER(title) LIKE LOWER('%'||search||'%') OR LOWER(author) LIKE
LOWER('%'||search||'%')`, with no `WHERE` clause when the stripped search
text is empty (`if search:` in the code). -/
def matchesSearch (search : String) (b : Book) : Bool :=
  if search = "" then true
  else
    let pat := '%' :: (lowerList search ++ ['%'])
    likeMatch pat (lowerList b.title) || likeMatch pat (lowerList b.author)

/-- The order `ORDER BY title COLLATE NOCASE ASC`. -/
def titleOrder (b1 b2 : Book) : Prop :=
  lexLE (lowerList b1.title) (lowerList b2.title) = true

/-- The order `ORDER BY available_copies DESC, title COLLATE NOCASE ASC`. -/
def availOrder (b1 b2 : Book) : Prop :=
  b2.available_copies < b1.available_copies ∨
    (b1.available_copies = b2.available_copies ∧ titleOrder b1 b2)

instance : DecidableRel titleOrder := fun b1 b2 => by
  unfold titleOrder; infer_instance

instance : DecidableRel availOrder := fun b1 b2 => by
  unfold availOrder; infer_instance

/-- The `list_books` handler (`GET /books?sort=&search=`): whitelist sort
keys with `title` as the default, optional case-insensitive `LIKE` filter
on title or author.  `insertionSort` stands for the SQL `ORDER BY`: any
result list sorted under the order the clause names is a faithful model,
since SQL leaves the order of ties unspecified. -/
def list_books (st : State) (sort search : String) : List Book :=
  let search := strip search
  let filtered := st.books.filter (matchesSearch search)
  if sort = "available_copies" then filtered.insertionSort availOrder
  else filtered.insertionSort titleOrder

/-- A row of the `/loans` page: joined loan, user and book fields plus the
live fine. -/
structure LoanView where
  id : Int
  user_name : String
  book_title : String
  borrow_date : Int
  due_date : Int
  days_late : Int
  fine : Int
deriving DecidableEq

/-- Due-date ordering of the `/loans` page (`ORDER BY loans.due_date ASC`). -/
def dueOrder (v1 v2 : LoanView) : Prop :=
  v1.due_date ≤ v2.due_date

instance : DecidableRel dueOrder := fun v1 v2 => by
  unfold dueOrder; infer_instance

/-- The `list_loans` handler (`GET /loans`): active loans inner-joined to
`users` and `books`, ordered by due date, each annotated with
`calculate_fine`. -/
def list_loans (st : State) (today : Int) : List LoanView :=
  let rows := st.loans.filter (fun l => l.return_date == none)
  let joined := rows.filterMap (fun l =>
    match st.users.find? (fun u => u.id == l.user_id),
          st.books.find? (fun b => b.id == l.book_id) with
    | some u, some b =>
      let fine := calculate_fine today l.due_date
      some ⟨l.id, u.name, b.title, l.borrow_date, l.due_date, fine.1, fine.2⟩
    | _, _ => none)
  joined.insertionSort dueOrder

/-- One user-visible mutating request, with its clock reading. -/
inductive Op where
  | addBook (title author isbn total_copies : String)
  | addUser (name email : String)
  | borrowOp (user_id_raw book_id_raw : String) (today : Int)
  | returnOp (loan_id_raw : String) (today : Int)

/-- The state after one request (failed requests leave the state unchanged). -/
def step (st : State) : Op → State
  | .addBook t a i n => (add_book st t a i n).1
  | .addUser n e => (add_user st n e).1
  | .borrowOp u b d => (borrow st u b d).1
  | .returnOp r d => (return_book st r d).1

/-- The state reached from the empty database by a sequence of requests. -/
def runOps (ops : List Op) : State :=
  ops.foldl step initState

/-! ### Helper lemmas -/

theorem parseInt_empty : parseInt "" = none := rfl

theorem strip_ne_empty_of_parseInt {s : String} {n : Int}
    (h : parseInt (strip s) = some n) : strip s ≠ "" := by
  intro he
  rw [he, parseInt_empty] at h
  exact Option.noConfusion h

/-- Looking up by id over an id-preserving row update commutes with the update. -/
theorem find?_id_map {α : Type} (rows : List α) (idOf : α → Int) (g : α → α)
    (hg : ∀ x, idOf (g x) = idOf x) (i : Int) :
    (rows.map g).find? (fun x => idOf x == i) =
      ((rows.find? (fun x => idOf x == i)).map g) := by
  rw [List.find?_map]
  have he : ((fun x => idOf x == i) ∘ g) = (fun x => idOf x == i) := by
    funext x
    simp [Function.comp, hg]
  rw [he]

/-- With pairwise-distinct ids, `find?` by id returns the known member. -/
theorem find?_id_unique {α : Type} (rows : List α) (idOf : α → Int)
    (hpw : rows.Pairwise (fun a b => idOf a ≠ idOf b)) (x : α) (hm : x ∈ rows)
    (i : Int) (hid : idOf x = i) :
    rows.find? (fun y => idOf y == i) = some x := by
  induction rows with
  | nil => cases hm
  | cons h t ih =>
    rcases List.pairwise_cons.mp hpw with ⟨hh, hpt⟩
    rcases List.mem_cons.mp hm with rfl | hmt
    · rw [List.find?_cons_of_pos _ (by simp [hid])]
    · have hne : idOf h ≠ i := fun he => hh x hmt (he.trans hid.symm)
      rw [List.find?_cons_of_neg _ (by simp [hne])]
      exact ih hpt hmt

/-! ### C1: fine computation -/

/-- C1: fine computation is a pure function of the due date and today:
`daysLate = max(today - dueDate, 0)` and `fine = daysLate * FINE_RATE`;
the fine is `0` whenever `today ≤ dueDate` and `5 * (today - dueDate)`
whenever `today > dueDate`. -/
theorem calculate_fine_spec (dueDate today : Int) :
    calculate_fine today dueDate =
      (max (today - dueDate) 0, max (today - dueDate) 0 * FINE_RATE) ∧
    (today ≤ dueDate → calculate_fine today dueDate = (0, 0)) ∧
    (dueDate < today →
      calculate_fine today dueDate = (today - dueDate, 5 * (today - dueDate))) := by
  refine ⟨rfl, fun h => ?_, fun h => ?_⟩ <;>
    simp only [calculate_fine, FINE_RATE, Prod.mk.injEq] <;>
    constructor <;> omega

theorem calculate_fine_spec_witness :
    calculate_fine 20 17 = (3, 15) ∧ calculate_fine 10 17 = (0, 0) :=
  ⟨((calculate_fine_spec 17 20).2.2 (by decide)).trans (by decide),
   (calculate_fine_spec 17 10).2.1 (by decide)⟩

/-! ### C5: borrowing an absent or exhausted book fails -/

/-- C5: for every user and every book id, `borrow` fails with the
availability error and leaves the state unchanged whenever the referenced
book does not exist or has `available_copies ≤ 0`; in particular borrowing
with zero available copies always fails. -/
theorem borrow_unavailable_spec (st : State) (uidR bidR : String)
    (uid bid today : Int)
    (hu : parseInt (strip uidR) = some uid) (hb : parseInt (strip bidR) = some bid)
    (hna : getBook st bid = none ∨
      ∃ bk, getBook st bid = some bk ∧ bk.available_copies ≤ 0) :
    borrow st uidR bidR today = (st, .notAvailable) := by
  have hu' := strip_ne_empty_of_parseInt hu
  have hb' := strip_ne_empty_of_parseInt hb
  rcases hna with hnone | ⟨bk, hbk, hle⟩
  · simp [borrow, hu', hb', hu, hb, hnone]
  · simp [borrow, hu', hb', hu, hb, hbk, hle]

/-- A database with one book that has no available copy. -/
def stZero : State :=
  ⟨[⟨1, "Dune", "Herbert", "111", 2, 0⟩], [⟨1, "Ann", "ann@example.com"⟩],
   [], 2, 2, 1⟩

theorem borrow_unavailable_spec_witness :
    borrow stZero "1" "1" 50 = (stZero, .notAvailable) :=
  borrow_unavailable_spec stZero "1" "1" 1 1 50 (by decide) (by decide)
    (Or.inr ⟨⟨1, "Dune", "Herbert", "111", 2, 0⟩, by decide, by decide⟩)

/-! ### C3: successful borrow -/

/-- C3: whenever the book exists with a spare copy and the pair has no
active loan, `borrow` succeeds: it appends exactly one loan with
`borrow_date = today`, `due_date = today + 14`, `return_date = NULL`,
decrements that book's `available_copies` by one (leaving every other
book and the users table unchanged), and reports the computed due date. -/
theorem borrow_success_spec (st : State) (uidR bidR : String)
    (uid bid today : Int) (book : Book)
    (hu : parseInt (strip uidR) = some uid) (hb : parseInt (strip bidR) = some bid)
    (hbk : getBook st bid = some book) (hav : 0 < book.available_copies)
    (hdup : findActivePair st uid bid = none) :
    (borrow st uidR bidR today).2 = .success (today + 14) ∧
    (borrow st uidR bidR today).1.loans =
      st.loans ++ [⟨st.nextLoanId, uid, bid, today, today + 14, none⟩] ∧
    getBook (borrow st uidR bidR today).1 bid =
      some { book with available_copies := book.available_copies - 1 } ∧
    (∀ bid', bid' ≠ bid →
      getBook (borrow st uidR bidR today).1 bid' = getBook st bid') ∧
    (borrow st uidR bidR today).1.users = st.users ∧
    (borrow st uidR bidR today).1.nextLoanId = st.nextLoanId + 1 := by
  have hu' := strip_ne_empty_of_parseInt hu
  have hb' := strip_ne_empty_of_parseInt hb
  have hav' : ¬ book.available_copies ≤ 0 := not_le.mpr hav
  have key : borrow st uidR bidR today =
      ({ st with
          loans := st.loans ++ [⟨st.nextLoanId, uid, bid, today, today + 14, none⟩],
          books := st.books.map (fun bk =>
            if bk.id == bid then
              { bk with available_copies := bk.available_copies - 1 }
            else bk),
          nextLoanId := st.nextLoanId + 1 },
       .success (today + 14)) := by
    simp [borrow, hu', hb', hu, hb, hbk, hav', hdup]
  have hid : book.id = bid := by
    have := List.find?_some hbk
    simpa using this
  have hmap := find?_id_map st.books Book.id
    (fun bk => if bk.id == bid then
      { bk with available_copies := bk.available_copies - 1 } else bk)
    (fun bk => by by_cases h : bk.id == bid <;> simp [h])
  refine ⟨by rw [key], by rw [key], ?_, ?_, by rw [key], by rw [key]⟩
  · rw [key]
    simp only [getBook]
    rw [hmap bid]
    rw [show st.books.find? (fun b => b.id == bid) = some book from hbk]
    simp [hid]
  · intro bid' hne
    rw [key]
    simp only [getBook]
    rw [hmap bid']
    cases hfind : st.books.find? (fun b => b.id == bid') with
    | none => rfl
    | some b' =>
      have hbid' : b'.id = bid' := by simpa using List.find?_some hfind
      rw [Option.map_some']
      rw [if_neg (by simp [hbid', hne])]

/-- A database with one book that has two available copies and one user. -/
def stTwo : State :=
  ⟨[⟨1, "Dune", "Herbert", "111", 2, 2⟩], [⟨1, "Ann", "ann@example.com"⟩],
   [], 2, 2, 1⟩

theorem borrow_success_spec_witness :
    (borrow stTwo "1" "1" 100).2 = .success 114 ∧
    (borrow stTwo "1" "1" 100).1.loans = [⟨1, 1, 1, 100, 114, none⟩] ∧
    getBook (borrow stTwo "1" "1" 100).1 1 =
      some ⟨1, "Dune", "Herbert", "111", 2, 1⟩ := by
  have h := borrow_success_spec stTwo "1" "1" 1 1 100
    ⟨1, "Dune", "Herbert", "111", 2, 2⟩
    (by decide) (by decide) (by decide) (by decide) (by decide)
  exact ⟨h.1, h.2.1, h.2.2.1⟩

/-- Updating exactly the rows with a given id, then looking that id up,
yields the updated version of the row the lookup found before. -/
theorem find?_id_adjust_hit {α : Type} (rows : List α) (idOf : α → Int)
    (f : α → α) (hf : ∀ x, idOf (f x) = idOf x) (tid : Int) (x : α)
    (hfind : rows.find? (fun y => idOf y == tid) = some x) :
    (rows.map (fun y => if idOf y == tid then f y else y)).find?
        (fun y => idOf y == tid) = some (f x) := by
  have hg : ∀ y, idOf (if idOf y == tid then f y else y) = idOf y := by
    intro y; by_cases h : idOf y == tid <;> simp [h, hf]
  rw [find?_id_map rows idOf _ hg tid, hfind, Option.map_some']
  have hxid : idOf x = tid := by simpa using List.find?_some hfind
  simp [hxid]

/-- Updating exactly the rows with a given id leaves lookups of every other
id unchanged. -/
theorem find?_id_adjust_miss {α : Type} (rows : List α) (idOf : α → Int)
    (f : α → α) (hf : ∀ x, idOf (f x) = idOf x) (tid i : Int) (hne : i ≠ tid) :
    (rows.map (fun y => if idOf y == tid then f y else y)).find?
        (fun y => idOf y == i) = rows.find? (fun y => idOf y == i) := by
  have hg : ∀ y, idOf (if idOf y == tid then f y else y) = idOf y := by
    intro y; by_cases h : idOf y == tid <;> simp [h, hf]
  rw [find?_id_map rows idOf _ hg i]
  cases hfind : rows.find? (fun y => idOf y == i) with
  | none => rfl
  | some y =>
    have hyid : idOf y = i := by simpa using List.find?_some hfind
    rw [Option.map_some', if_neg (by simp [hyid, hne])]

/-! ### C4: return_book -/

/-- C4: `return_book` fails with a validation error on a missing or
non-numeric loan id, fails with the not-found error when no active loan
(`return_date IS NULL`) has that id — so a closed loan can never be
returned again — and on success sets the loan's `return_date` to today,
increments the loan's book's `available_copies` by exactly one (all other
rows and the users table untouched), and reports
`calculate_fine(due_date, today)`. -/
theorem return_book_spec (st : State) (raw : String) (today : Int) :
    ((strip raw = "" ∨ parseInt (strip raw) = none) →
      return_book st raw today = (st, .validationError)) ∧
    (∀ lid, parseInt (strip raw) = some lid → findActiveLoan st lid = none →
      return_book st raw today = (st, .notFound)) ∧
    (∀ lid loan, st.loans.Pairwise (fun a b => a.id ≠ b.id) →
      parseInt (strip raw) = some lid → findActiveLoan st lid = some loan →
      (return_book st raw today).2 =
        .success (calculate_fine today loan.due_date).1
          (calculate_fine today loan.due_date).2 ∧
      getLoan (return_book st raw today).1 lid =
        some { loan with return_date := some today } ∧
      (∀ lid', lid' ≠ lid →
        getLoan (return_book st raw today).1 lid' = getLoan st lid') ∧
      (∀ b, getBook st loan.book_id = some b →
        getBook (return_book st raw today).1 loan.book_id =
          some { b with available_copies := b.available_copies + 1 }) ∧
      (∀ bid', bid' ≠ loan.book_id →
        getBook (return_book st raw today).1 bid' = getBook st bid') ∧
      (return_book st raw today).1.users = st.users) := by
  refine ⟨fun h => ?_, fun lid hp hnone => ?_, fun lid loan hpw hp hfound => ?_⟩
  · rcases h with he | hn
    · simp [return_book, he]
    · by_cases he : strip raw = ""
      · simp [return_book, he]
      · simp [return_book, he, hn]
  · have he := strip_ne_empty_of_parseInt hp
    simp [return_book, he, hp, hnone]
  · have he := strip_ne_empty_of_parseInt hp
    have hli : loan.id = lid ∧ loan.return_date = none := by
      have := List.find?_some hfound
      simpa using this
    have hmem : loan ∈ st.loans := List.mem_of_find?_eq_some hfound
    have key : return_book st raw today =
        ({ st with
            loans := st.loans.map (fun l =>
              if l.id == lid then { l with return_date := some today } else l),
            books := st.books.map (fun bk =>
              if bk.id == loan.book_id then
                { bk with available_copies := bk.available_copies + 1 }
              else bk) },
         .success (calculate_fine today loan.due_date).1
           (calculate_fine today loan.due_date).2) := by
      simp [return_book, he, hp, hfound]
    refine ⟨by rw [key], ?_, ?_, ?_, ?_, by rw [key]⟩
    · rw [key]
      simp only [getLoan]
      rw [find?_id_adjust_hit st.loans Loan.id
        (fun l => { l with return_date := some today }) (fun l => rfl) lid loan
        (find?_id_unique st.loans Loan.id hpw loan hmem lid hli.1)]
    · intro lid' hne
      rw [key]
      simp only [getLoan]
      rw [find?_id_adjust_miss st.loans Loan.id
        (fun l => { l with return_date := some today }) (fun l => rfl) lid lid' hne]
    · intro b hb
      rw [key]
      simp only [getBook]
      rw [find?_id_adjust_hit st.books Book.id
        (fun bk => { bk with available_copies := bk.available_copies + 1 })
        (fun bk => rfl) loan.book_id b hb]
    · intro bid' hne
      rw [key]
      simp only [getBook]
      rw [find?_id_adjust_miss st.books Book.id
        (fun bk => { bk with available_copies := bk.available_copies + 1 })
        (fun bk => rfl) loan.book_id bid' hne]

/-- A database with one book (one of two copies out) and one active loan. -/
def stLoan : State :=
  ⟨[⟨1, "Dune", "Herbert", "111", 2, 1⟩], [⟨1, "Ann", "ann@example.com"⟩],
   [⟨1, 1, 1, 100, 114, none⟩], 2, 2, 2⟩

theorem return_book_spec_witness :
    return_book stLoan "zzz" 117 = (stLoan, .validationError) ∧
    return_book stLoan "7" 117 = (stLoan, .notFound) ∧
    (return_book stLoan "1" 117).2 = .success 3 15 ∧
    getLoan (return_book stLoan "1" 117).1 1 = some ⟨1, 1, 1, 100, 114, some 117⟩ ∧
    getBook (return_book stLoan "1" 117).1 1 =
      some ⟨1, "Dune", "Herbert", "111", 2, 2⟩ := by
  have h1 := (return_book_spec stLoan "zzz" 117).1 (Or.inr (by decide))
  have h2 := (return_book_spec stLoan "7" 117).2.1 7 (by decide) (by decide)
  have h3 := (return_book_spec stLoan "1" 117).2.2 1 ⟨1, 1, 1, 100, 114, none⟩
    (by decide) (by decide) (by decide)
  refine ⟨h1, h2, h3.1.trans (by decide), h3.2.1, ?_⟩
  have := h3.2.2.2.1 ⟨1, "Dune", "Herbert", "111", 2, 1⟩ (by decide)
  exact this

/-! ### C7: add_book -/

/-- C7: `add_book` fails with a validation error when any field is empty or
`total_copies` does not parse as a positive integer, fails with the
conflict error when the isbn already exists, and for every positive `n` a
successful add with `total_copies = n` inserts a book whose
`available_copies` (and `total_copies`) equal `n`. -/
theorem add_book_spec (st : State) (title author isbn copies : String) :
    ((strip title = "" ∨ strip author = "" ∨ strip isbn = "" ∨ strip copies = "") →
      add_book st title author isbn copies = (st, .validationError)) ∧
    (parseInt (strip copies) = none →
      add_book st title author isbn copies = (st, .validationError)) ∧
    (∀ n, parseInt (strip copies) = some n → n ≤ 0 →
      add_book st title author isbn copies = (st, .validationError)) ∧
    (∀ n, parseInt (strip copies) = some n → 0 < n →
      strip title ≠ "" → strip author ≠ "" → strip isbn ≠ "" →
      ((∃ b ∈ st.books, b.isbn = strip isbn) →
        add_book st title author isbn copies = (st, .conflictError)) ∧
      ((∀ b ∈ st.books, b.isbn ≠ strip isbn) →
        add_book st title author isbn copies =
          ({ st with
              books := st.books ++
                [⟨st.nextBookId, strip title, strip author, strip isbn, n, n⟩],
              nextBookId := st.nextBookId + 1 },
           .success))) := by
  refine ⟨fun h => ?_, fun h => ?_, fun n hp hle => ?_, fun n hp hpos ht ha hi => ⟨fun hdup => ?_, fun hfree => ?_⟩⟩
  · rcases h with he | he | he | he <;> simp [add_book, he]
  · by_cases he : strip title = "" ∨ strip author = "" ∨ strip isbn = "" ∨ strip copies = ""
    · rcases he with he | he | he | he <;> simp [add_book, he]
    · push_neg at he
      simp [add_book, he.1, he.2.1, he.2.2.1, he.2.2.2, h]
  · by_cases he : strip title = "" ∨ strip author = "" ∨ strip isbn = "" ∨ strip copies = ""
    · rcases he with he | he | he | he <;> simp [add_book, he]
    · push_neg at he
      simp [add_book, he.1, he.2.1, he.2.2.1, he.2.2.2, hp, hle]
  · have hc := strip_ne_empty_of_parseInt hp
    have hany : st.books.any (fun b => b.isbn == strip isbn) = true := by
      rcases hdup with ⟨b, hb, hbi⟩
      exact List.any_eq_true.mpr ⟨b, hb, by simp [hbi]⟩
    have hle : ¬ n ≤ 0 := not_le.mpr hpos
    simp [add_book, ht, ha, hi, hc, hp, hle, hany]
  · have hc := strip_ne_empty_of_parseInt hp
    have hany : st.books.any (fun b => b.isbn == strip isbn) = false := by
      rw [List.any_eq_false]
      intro b hb
      simp [hfree b hb]
    have hle : ¬ n ≤ 0 := not_le.mpr hpos
    simp [add_book, ht, ha, hi, hc, hp, hle, hany]

theorem add_book_spec_witness :
    add_book initState "Dune" "Herbert" "111" "0" = (initState, .validationError) ∧
    add_book initState "Dune" "Herbert" "111" "two" = (initState, .validationError) ∧
    add_book initState "Dune" "Herbert" "111" "3" =
      ({ initState with
          books := [⟨1, "Dune", "Herbert", "111", 3, 3⟩], nextBookId := 2 },
       .success) := by
  have h1 := (add_book_spec initState "Dune" "Herbert" "111" "0").2.2.1 0
    (by decide) (by decide)
  have h2 := (add_book_spec initState "Dune" "Herbert" "111" "two").2.1 (by decide)
  have h3 := ((add_book_spec initState "Dune" "Herbert" "111" "3").2.2.2 3
    (by decide) (by decide) (by decide) (by decide) (by decide)).2
    (by intro b hb; simp [initState] at hb)
  exact ⟨h1, h2, h3.trans (by decide)⟩

/-! ### C2: the inventory invariant -/

/-- Inductive invariant of the database: rowids are unique and below their
counters, every loan references an existing book, and each book's
`available_copies` is its `total_copies` minus its active loans (and is
non-negative). -/
def DbInv (st : State) : Prop :=
  st.books.Pairwise (fun a b => a.id ≠ b.id) ∧
  (∀ b ∈ st.books, b.id < st.nextBookId) ∧
  st.loans.Pairwise (fun a b => a.id ≠ b.id) ∧
  (∀ l ∈ st.loans, l.id < st.nextLoanId) ∧
  (∀ l ∈ st.loans, ∃ b ∈ st.books, l.book_id = b.id) ∧
  (∀ b ∈ st.books, 0 ≤ b.available_copies ∧
    b.available_copies = b.total_copies - countActive st.loans b.id)

theorem DbInv_init : DbInv initState := by
  refine ⟨?_, ?_, ?_, ?_, ?_, ?_⟩ <;> simp [initState]

theorem countActive_append (l1 l2 : List Loan) (bid : Int) :
    countActive (l1 ++ l2) bid = countActive l1 bid + countActive l2 bid := by
  simp [countActive, List.filter_append]

theorem countActive_singleton (l : Loan) (bid : Int) :
    countActive [l] bid =
      if l.book_id == bid && l.return_date == none then 1 else 0 := by
  by_cases h : (l.book_id == bid && l.return_date == none) = true <;>
    simp [countActive, List.filter, h]

theorem countActive_cons (l : Loan) (loans : List Loan) (bid : Int) :
    countActive (l :: loans) bid =
      (if l.book_id == bid && l.return_date == none then 1 else 0) +
        countActive loans bid := by
  by_cases h : (l.book_id == bid && l.return_date == none) = true
  · simp [countActive, List.filter_cons, h]
    omega
  · simp [countActive, List.filter_cons, h]

theorem countActive_eq_zero (loans : List Loan) (bid : Int)
    (h : ∀ l ∈ loans, l.book_id ≠ bid) : countActive loans bid = 0 := by
  simp only [countActive, List.length_eq_zero]
  rw [List.filter_eq_nil_iff]
  intro l hl
  simp [h l hl]

theorem countActive_pos (loans : List Loan) (l : Loan) (hl : l ∈ loans)
    (hb : l.book_id = bid) (ha : l.return_date = none) :
    1 ≤ countActive loans bid := by
  have : l ∈ loans.filter (fun x => x.book_id == bid && x.return_date == none) :=
    List.mem_filter.mpr ⟨hl, by simp [hb, ha]⟩
  exact List.length_pos.mpr (List.ne_nil_of_mem this)

/-- In a list of rows with pairwise-distinct ids, two members sharing an id
are the same row. -/
theorem mem_unique_id {α : Type} (idOf : α → Int) (rows : List α)
    (hpw : rows.Pairwise (fun a b => idOf a ≠ idOf b)) (x y : α)
    (hx : x ∈ rows) (hy : y ∈ rows) (he : idOf x = idOf y) : x = y := by
  induction rows with
  | nil => cases hx
  | cons h t ih =>
    rcases List.pairwise_cons.mp hpw with ⟨hh, hpt⟩
    rcases List.mem_cons.mp hx with rfl | hxt
    · rcases List.mem_cons.mp hy with rfl | hyt
      · rfl
      · exact absurd he (hh y hyt)
    · rcases List.mem_cons.mp hy with rfl | hyt
      · exact absurd he.symm (hh x hxt)
      · exact ih hpt hxt hyt

/-- Closing the (unique) active loan `loan` removes exactly one active loan
of its book. -/
theorem countActive_close_hit (loans : List Loan) (lid today : Int)
    (hpw : loans.Pairwise (fun a b => a.id ≠ b.id)) (loan : Loan)
    (hmem : loan ∈ loans) (hid : loan.id = lid) (hact : loan.return_date = none) :
    countActive (loans.map (fun l =>
        if l.id == lid then { l with return_date := some today } else l))
      loan.book_id = countActive loans loan.book_id - 1 := by
  induction loans with
  | nil => cases hmem
  | cons h t ih =>
    rcases List.pairwise_cons.mp hpw with ⟨hh, hpt⟩
    rcases List.mem_cons.mp hmem with rfl | hmt
    · have hnot : ∀ l ∈ t, ¬(l.id == lid) = true := by
        intro l hl
        simp only [beq_iff_eq]
        exact fun he => hh l hl (hid.symm ▸ he ▸ rfl)
      rw [List.map_cons, if_pos (by simp [hid])]
      rw [List.map_congr_left (fun l hl => if_neg (hnot l hl))]
      simp only [List.map_id']
      rw [countActive_cons, countActive_cons]
      simp [hact]
    · have hne : ¬(h.id == lid) = true := by
        simp only [beq_iff_eq]
        exact fun he => hh loan hmt (he.trans hid.symm)
      rw [List.map_cons, if_neg hne]
      rw [countActive_cons, countActive_cons, ih hpt hmt]
      have h1 : 1 ≤ countActive t loan.book_id :=
        countActive_pos t loan hmt rfl hact
      omega

/-- Closing a loan changes no other book's active-loan count. -/
theorem countActive_close_miss (loans : List Loan) (lid today : Int)
    (hpw : loans.Pairwise (fun a b => a.id ≠ b.id)) (loan : Loan)
    (hmem : loan ∈ loans) (hid : loan.id = lid) (bid : Int)
    (hne : bid ≠ loan.book_id) :
    countActive (loans.map (fun l =>
        if l.id == lid then { l with return_date := some today } else l))
      bid = countActive loans bid := by
  simp only [countActive, List.filter_map, List.length_map]
  congr 1
  apply List.filter_congr
  intro l hl
  by_cases hidl : (l.id == lid) = true
  · have : l = loan := mem_unique_id Loan.id loans hpw l loan hl hmem
      (by rw [hid]; exact beq_iff_eq.mp hidl)
    subst this
    simp [Function.comp, hidl, (by simpa [eq_comm] using hne : ¬ l.book_id = bid)]
  · simp [Function.comp, hidl]

theorem DbInv_add_user (st : State) (nm em : String) (h : DbInv st) :
    DbInv (add_user st nm em).1 := by
  simp only [add_user]
  split
  · exact h
  · split
    · exact h
    · exact h

theorem DbInv_add_book (st : State) (title author isbn copies : String)
    (h : DbInv st) : DbInv (add_book st title author isbn copies).1 := by
  obtain ⟨hbpw, hbid, hlpw, hlid, hlbk, hbal⟩ := h
  simp only [add_book]
  split
  · exact ⟨hbpw, hbid, hlpw, hlid, hlbk, hbal⟩
  · split
    · exact ⟨hbpw, hbid, hlpw, hlid, hlbk, hbal⟩
    · rename_i n hn
      split
      · exact ⟨hbpw, hbid, hlpw, hlid, hlbk, hbal⟩
      · split
        · exact ⟨hbpw, hbid, hlpw, hlid, hlbk, hbal⟩
        · rename_i hpos _
          refine ⟨?_, ?_, hlpw, hlid, ?_, ?_⟩
          · rw [List.pairwise_append]
            refine ⟨hbpw, List.pairwise_singleton _ _, ?_⟩
            intro a ha b hb
            rcases List.mem_singleton.mp hb with rfl
            exact ne_of_lt (hbid a ha)
          · intro b hb
            show b.id < st.nextBookId + 1
            rcases List.mem_append.mp hb with hb | hb
            · exact lt_trans (hbid b hb) (by omega)
            · rcases List.mem_singleton.mp hb with rfl
              show st.nextBookId < st.nextBookId + 1
              omega
          · intro l hl
            obtain ⟨b, hbm, hbe⟩ := hlbk l hl
            exact ⟨b, List.mem_append_left _ hbm, hbe⟩
          · intro b hb
            rcases List.mem_append.mp hb with hb | hb
            · exact hbal b hb
            · rcases List.mem_singleton.mp hb with rfl
              have hz : countActive st.loans st.nextBookId = 0 := by
                apply countActive_eq_zero
                intro l hl
                obtain ⟨b0, hb0, he0⟩ := hlbk l hl
                rw [he0]
                exact ne_of_lt (hbid b0 hb0)
              constructor
              · show (0 : Int) ≤ n
                omega
              · show (n : Int) = n - countActive st.loans st.nextBookId
                rw [hz]
                simp

theorem DbInv_borrow (st : State) (u b : String) (today : Int) (h : DbInv st) :
    DbInv (borrow st u b today).1 := by
  obtain ⟨hbpw, hbid, hlpw, hlid, hlbk, hbal⟩ := h
  simp only [borrow]
  split
  · exact ⟨hbpw, hbid, hlpw, hlid, hlbk, hbal⟩
  · split
    · rename_i user_id book_id hpu hpb
      split
      · exact ⟨hbpw, hbid, hlpw, hlid, hlbk, hbal⟩
      · rename_i book hbk
        have hbmem : book ∈ st.books := List.mem_of_find?_eq_some hbk
        have hbkid : book.id = book_id := by simpa using List.find?_some hbk
        split
        · exact ⟨hbpw, hbid, hlpw, hlid, hlbk, hbal⟩
        · rename_i hava
          split
          · exact ⟨hbpw, hbid, hlpw, hlid, hlbk, hbal⟩
          · have hgid : ∀ bk : Book,
                (if bk.id == book_id then
                  { bk with available_copies := bk.available_copies - 1 }
                 else bk).id = bk.id := by
              intro bk; by_cases hbb : (bk.id == book_id) = true <;> simp [hbb]
            refine ⟨?_, ?_, ?_, ?_, ?_, ?_⟩
            · exact hbpw.map _ (fun a b hab => by rw [hgid a, hgid b]; exact hab)
            · intro bk hbkm
              rcases List.mem_map.mp hbkm with ⟨b0, hb0, rfl⟩
              rw [hgid b0]
              exact hbid b0 hb0
            · rw [List.pairwise_append]
              refine ⟨hlpw, List.pairwise_singleton _ _, ?_⟩
              intro a ha c hc
              rcases List.mem_singleton.mp hc with rfl
              exact ne_of_lt (hlid a ha)
            · intro l hl
              show l.id < st.nextLoanId + 1
              rcases List.mem_append.mp hl with hl | hl
              · exact lt_trans (hlid l hl) (by omega)
              · rcases List.mem_singleton.mp hl with rfl
                show st.nextLoanId < st.nextLoanId + 1
                omega
            · intro l hl
              rcases List.mem_append.mp hl with hl | hl
              · obtain ⟨b0, hb0, he0⟩ := hlbk l hl
                refine ⟨_, List.mem_map_of_mem _ hb0, ?_⟩
                rw [hgid b0]
                exact he0
              · rcases List.mem_singleton.mp hl with rfl
                refine ⟨_, List.mem_map_of_mem _ hbmem, ?_⟩
                rw [hgid book]
                show book_id = book.id
                exact hbkid.symm
            · intro bk hbkm
              rcases List.mem_map.mp hbkm with ⟨b0, hb0, rfl⟩
              have hcnt : countActive (st.loans ++
                  [⟨st.nextLoanId, user_id, book_id, today, today + 14, none⟩]) b0.id =
                  countActive st.loans b0.id +
                    (if book_id = b0.id then 1 else 0) := by
                rw [countActive_append, countActive_singleton]
                by_cases he : book_id = b0.id <;> simp [he]
              by_cases hbb : (b0.id == book_id) = true
              · have hb0book : b0 = book :=
                  mem_unique_id Book.id st.books hbpw b0 book hb0 hbmem
                    (by rw [hbkid]; exact beq_iff_eq.mp hbb)
                subst hb0book
                obtain ⟨hge, heq⟩ := hbal b0 hb0
                have hava' : ¬ b0.available_copies ≤ 0 := by simpa using hava
                simp only [if_pos hbb]
                constructor
                · show (0 : Int) ≤ b0.available_copies - 1
                  omega
                · show b0.available_copies - 1 =
                    b0.total_copies - countActive (st.loans ++
                      [⟨st.nextLoanId, user_id, book_id, today, today + 14, none⟩]) b0.id
                  rw [hcnt, if_pos (beq_iff_eq.mp hbb).symm]
                  push_cast
                  omega
              · obtain ⟨hge, heq⟩ := hbal b0 hb0
                simp only [if_neg hbb]
                constructor
                · exact hge
                · show b0.available_copies =
                    b0.total_copies - countActive (st.loans ++
                      [⟨st.nextLoanId, user_id, book_id, today, today + 14, none⟩]) b0.id
                  rw [hcnt, if_neg (fun he => hbb (by simp [he]))]
                  simpa using heq
    · exact ⟨hbpw, hbid, hlpw, hlid, hlbk, hbal⟩

theorem DbInv_return (st : State) (raw : String) (today : Int) (h : DbInv st) :
    DbInv (return_book st raw today).1 := by
  obtain ⟨hbpw, hbid, hlpw, hlid, hlbk, hbal⟩ := h
  simp only [return_book]
  split
  · exact ⟨hbpw, hbid, hlpw, hlid, hlbk, hbal⟩
  · split
    · exact ⟨hbpw, hbid, hlpw, hlid, hlbk, hbal⟩
    · rename_i lid hp
      split
      · exact ⟨hbpw, hbid, hlpw, hlid, hlbk, hbal⟩
      · rename_i loan hfound
        have hmem : loan ∈ st.loans := List.mem_of_find?_eq_some hfound
        have hli : loan.id = lid ∧ loan.return_date = none := by
          simpa using List.find?_some hfound
        have hfid : ∀ l : Loan,
            (if l.id == lid then { l with return_date := some today } else l).id =
              l.id := by
          intro l; by_cases hl : (l.id == lid) = true <;> simp [hl]
        have hgid : ∀ bk : Book,
            (if bk.id == loan.book_id then
              { bk with available_copies := bk.available_copies + 1 }
             else bk).id = bk.id := by
          intro bk; by_cases hbb : (bk.id == loan.book_id) = true <;> simp [hbb]
        refine ⟨?_, ?_, ?_, ?_, ?_, ?_⟩
        · exact hbpw.map _ (fun a b hab => by rw [hgid a, hgid b]; exact hab)
        · intro bk hbkm
          rcases List.mem_map.mp hbkm with ⟨b0, hb0, rfl⟩
          rw [hgid b0]
          exact hbid b0 hb0
        · exact hlpw.map _ (fun a b hab => by rw [hfid a, hfid b]; exact hab)
        · intro l hl
          rcases List.mem_map.mp hl with ⟨l0, hl0, rfl⟩
          rw [hfid l0]
          exact hlid l0 hl0
        · intro l hl
          rcases List.mem_map.mp hl with ⟨l0, hl0, rfl⟩
          obtain ⟨b0, hb0, he0⟩ := hlbk l0 hl0
          refine ⟨_, List.mem_map_of_mem _ hb0, ?_⟩
          rw [hgid b0]
          show (if l0.id == lid then { l0 with return_date := some today } else l0).book_id = b0.id
          by_cases hl0id : (l0.id == lid) = true <;> simp [hl0id, he0]
        · intro bk hbkm
          rcases List.mem_map.mp hbkm with ⟨b0, hb0, rfl⟩
          obtain ⟨hge, heq⟩ := hbal b0 hb0
          by_cases hbb : (b0.id == loan.book_id) = true
          · have hb0id : b0.id = loan.book_id := beq_iff_eq.mp hbb
            have hcnt := countActive_close_hit st.loans lid today hlpw loan hmem
              hli.1 hli.2
            have hone : 1 ≤ countActive st.loans loan.book_id :=
              countActive_pos st.loans loan hmem rfl hli.2
            simp only [if_pos hbb]
            constructor
            · show (0 : Int) ≤ b0.available_copies + 1
              omega
            · show b0.available_copies + 1 =
                b0.total_copies - countActive (st.loans.map (fun l =>
                  if l.id == lid then { l with return_date := some today } else l))
                  b0.id
              rw [hb0id, hcnt]
              rw [hb0id] at heq
              push_cast [hone]
              omega
          · have hb0id : b0.id ≠ loan.book_id := fun he => hbb (by simp [he])
            simp only [if_neg hbb]
            constructor
            · exact hge
            · show b0.available_copies =
                b0.total_copies - countActive (st.loans.map (fun l =>
                  if l.id == lid then { l with return_date := some today } else l))
                  b0.id
              rw [countActive_close_miss st.loans lid today hlpw loan hmem hli.1
                b0.id hb0id]
              exact heq

theorem DbInv_step (st : State) (op : Op) (h : DbInv st) : DbInv (step st op) := by
  cases op with
  | addBook t a i n => exact DbInv_add_book st t a i n h
  | addUser n e => exact DbInv_add_user st n e h
  | borrowOp u b d => exact DbInv_borrow st u b d h
  | returnOp r d => exact DbInv_return st r d h

theorem DbInv_foldl (ops : List Op) : ∀ st, DbInv st → DbInv (ops.foldl step st) := by
  induction ops with
  | nil => intro st h; exact h
  | cons op ops ih => intro st h; exact ih (step st op) (DbInv_step st op h)

theorem DbInv_runOps (ops : List Op) : DbInv (runOps ops) :=
  DbInv_foldl ops initState DbInv_init

/-- C2: in every state reachable from the empty database by any sequence of
requests, every book satisfies `0 ≤ available_copies ≤ total_copies`. -/
theorem available_copies_invariant (ops : List Op) :
    ∀ b ∈ (runOps ops).books,
      0 ≤ b.available_copies ∧ b.available_copies ≤ b.total_copies := by
  intro b hb
  obtain ⟨_, _, _, _, _, hbal⟩ := DbInv_runOps ops
  obtain ⟨hge, heq⟩ := hbal b hb
  have : (0 : Int) ≤ countActive (runOps ops).loans b.id := Int.ofNat_nonneg _
  omega

theorem available_copies_invariant_witness :
    0 ≤ (⟨1, "Dune", "Herbert", "111", 2, 1⟩ : Book).available_copies ∧
    (⟨1, "Dune", "Herbert", "111", 2, 1⟩ : Book).available_copies ≤
      (⟨1, "Dune", "Herbert", "111", 2, 1⟩ : Book).total_copies :=
  available_copies_invariant
    [.addBook "Dune" "Herbert" "111" "2", .addUser "Ann" "ann@example.com",
     .borrowOp "1" "1" 0]
    ⟨1, "Dune", "Herbert", "111", 2, 1⟩ (by decide)

/-! ### C6: duplicate borrow -/

/-- At most one active loan per `(user_id, book_id)` pair. -/
def NoDupActive (loans : List Loan) : Prop :=
  loans.Pairwise (fun l1 l2 => l1.return_date = none → l2.return_date = none →
    ¬(l1.user_id = l2.user_id ∧ l1.book_id = l2.book_id))

/-- A database where the single copy of the only book is out on loan to
user 1: the pair `(1, 1)` has an active loan and `available_copies = 0`. -/
def stDup : State :=
  runOps [.addBook "Dune" "Herbert" "111" "1", .addUser "Ann" "ann@example.com",
          .borrowOp "1" "1" 0]

/-- C6 counterexample: with an active loan for the pair `(1, 1)` but
`available_copies = 0`, a further `borrow` fails with the availability
error, not with `DuplicateLoanError` — the availability check runs first. -/
theorem borrow_duplicate_cex :
    findActivePair stDup 1 1 = some ⟨1, 1, 1, 0, 14, none⟩ ∧
    getBook stDup 1 = some ⟨1, "Dune", "Herbert", "111", 1, 0⟩ ∧
    (borrow stDup "1" "1" 5).2 = .notAvailable ∧
    (borrow stDup "1" "1" 5).2 ≠ .duplicateLoan := by decide

theorem NoDupActive_step (st : State) (op : Op) (h : NoDupActive st.loans) :
    NoDupActive (step st op).loans := by
  cases op with
  | addBook t a i n =>
    simp only [step, add_book]
    split
    · exact h
    · split
      · exact h
      · split
        · exact h
        · split
          · exact h
          · exact h
  | addUser n e =>
    simp only [step, add_user]
    split
    · exact h
    · split
      · exact h
      · exact h
  | borrowOp u b d =>
    simp only [step, borrow]
    split
    · exact h
    · split
      · rename_i user_id book_id hpu hpb
        split
        · exact h
        · split
          · exact h
          · split
            · exact h
            · rename_i hdup
              show NoDupActive (st.loans ++
                [⟨st.nextLoanId, user_id, book_id, d, d + 14, none⟩])
              unfold NoDupActive at h ⊢
              rw [List.pairwise_append]
              refine ⟨h, List.pairwise_singleton _ _, ?_⟩
              intro a ha c hc
              rcases List.mem_singleton.mp hc with rfl
              intro hact _ hpair
              have := List.find?_eq_none.mp hdup a ha
              simp only [Bool.and_eq_true, beq_iff_eq] at this
              exact this ⟨⟨hpair.1, hpair.2⟩, by simp [hact]⟩
      · exact h
  | returnOp r d =>
    simp only [step, return_book]
    split
    · exact h
    · split
      · exact h
      · split
        · exact h
        · have hact : ∀ (lid t : Int) (l : Loan),
              (if l.id == lid then { l with return_date := some t } else l).return_date = none →
              l.return_date = none := by
            intro lid t l hl
            by_cases hid : (l.id == lid) = true
            · rw [if_pos hid] at hl
              exact absurd hl (by simp)
            · rwa [if_neg hid] at hl
          have hids : ∀ (lid t : Int) (l : Loan),
              (if l.id == lid then { l with return_date := some t } else l).user_id = l.user_id ∧
              (if l.id == lid then { l with return_date := some t } else l).book_id = l.book_id := by
            intro lid t l
            by_cases hid : (l.id == lid) = true
            · rw [if_pos hid]; exact ⟨rfl, rfl⟩
            · rw [if_neg hid]; exact ⟨rfl, rfl⟩
          exact h.map _ (fun a b hab hfa hfb hpair =>
            hab (hact _ _ a hfa) (hact _ _ b hfb) (by
              rw [(hids _ _ a).1, (hids _ _ a).2, (hids _ _ b).1,
                (hids _ _ b).2] at hpair
              exact hpair))

theorem NoDupActive_foldl (ops : List Op) :
    ∀ st, NoDupActive st.loans → NoDupActive (ops.foldl step st).loans := by
  induction ops with
  | nil => intro st h; exact h
  | cons op ops ih => intro st h; exact ih (step st op) (NoDupActive_step st op h)

/-- C6 (amended): a `borrow` for a pair that already has an active loan
fails with `DuplicateLoanError` provided the book still has
`available_copies > 0` (when no copies are left the availability error
takes precedence), and leaves the state unchanged; and in every reachable
state a `(user_id, book_id)` pair has at most one active loan. -/
theorem borrow_duplicate_spec :
    (∀ st uidR bidR uid bid today (book l : _),
      parseInt (strip uidR) = some uid → parseInt (strip bidR) = some bid →
      getBook st bid = some book → 0 < book.available_copies →
      findActivePair st uid bid = some l →
      borrow st uidR bidR today = (st, .duplicateLoan)) ∧
    (∀ ops, NoDupActive (runOps ops).loans) := by
  constructor
  · intro st uidR bidR uid bid today book l hu hb hbk hav hdup
    have hu' := strip_ne_empty_of_parseInt hu
    have hb' := strip_ne_empty_of_parseInt hb
    have hav' : ¬ book.available_copies ≤ 0 := not_le.mpr hav
    simp [borrow, hu', hb', hu, hb, hbk, hav', hdup]
  · intro ops
    exact NoDupActive_foldl ops initState (List.Pairwise.nil)

/-- A database where user 1 holds one of the two copies of the only book:
the pair `(1, 1)` has an active loan and a copy is still available. -/
def stDupFree : State :=
  runOps [.addBook "Dune" "Herbert" "111" "2", .addUser "Ann" "ann@example.com",
          .borrowOp "1" "1" 0]

theorem borrow_duplicate_spec_witness :
    borrow stDupFree "1" "1" 5 = (stDupFree, .duplicateLoan) ∧
    NoDupActive (runOps [.addBook "Dune" "Herbert" "111" "2",
      .addUser "Ann" "ann@example.com", .borrowOp "1" "1" 0]).loans :=
  ⟨borrow_duplicate_spec.1 stDupFree "1" "1" 1 1 5
    ⟨1, "Dune", "Herbert", "111", 2, 1⟩ ⟨1, 1, 1, 0, 14, none⟩
    (by decide) (by decide) (by decide) (by decide) (by decide),
   borrow_duplicate_spec.2 _⟩

/-! ### C8: borrow-then-return round-trip -/

/-- On a successful return, the books table gets exactly the
`available_copies + 1` update at the returned loan's book id. -/
theorem return_book_success_books (st : State) (lidR : String)
    (today' lid : Int) (loan : Loan)
    (hl' : strip lidR ≠ "") (hl : parseInt (strip lidR) = some lid)
    (hfound : findActiveLoan st lid = some loan) :
    (return_book st lidR today').1.books = st.books.map (fun bk =>
      if bk.id == loan.book_id then
        { bk with available_copies := bk.available_copies + 1 }
      else bk) := by
  simp [return_book, hl', hl, hfound]

/-- C8: from any well-formed state in which `borrow` succeeds, returning
the loan that borrow just created restores the book row — in particular
its `available_copies` — to exactly its pre-borrow value. -/
theorem borrow_return_roundtrip (st : State) (uidR bidR lidR : String)
    (uid bid today today' : Int) (book : Book) (hinv : DbInv st)
    (hu : parseInt (strip uidR) = some uid) (hb : parseInt (strip bidR) = some bid)
    (hl : parseInt (strip lidR) = some st.nextLoanId)
    (hbk : getBook st bid = some book) (hav : 0 < book.available_copies)
    (hdup : findActivePair st uid bid = none) :
    getBook (return_book (borrow st uidR bidR today).1 lidR today').1 bid =
      some book := by
  obtain ⟨hbpw, hbid, hlpw, hlid, hlbk, hbal⟩ := hinv
  have hu' := strip_ne_empty_of_parseInt hu
  have hb' := strip_ne_empty_of_parseInt hb
  have hl' := strip_ne_empty_of_parseInt hl
  have hav' : ¬ book.available_copies ≤ 0 := not_le.mpr hav
  have key : borrow st uidR bidR today =
      ({ st with
          loans := st.loans ++ [⟨st.nextLoanId, uid, bid, today, today + 14, none⟩],
          books := st.books.map (fun bk =>
            if bk.id == bid then
              { bk with available_copies := bk.available_copies - 1 }
            else bk),
          nextLoanId := st.nextLoanId + 1 },
       .success (today + 14)) := by
    simp [borrow, hu', hb', hu, hb, hbk, hav', hdup]
  rw [key]
  dsimp only
  have hfind : (st.loans ++
      [(⟨st.nextLoanId, uid, bid, today, today + 14, none⟩ : Loan)]).find?
      (fun l => l.id == st.nextLoanId && l.return_date == none) =
      some ⟨st.nextLoanId, uid, bid, today, today + 14, none⟩ := by
    rw [List.find?_append]
    have h1 : st.loans.find?
        (fun l => l.id == st.nextLoanId && l.return_date == none) = none := by
      rw [List.find?_eq_none]
      intro l hlmem
      simp only [Bool.and_eq_true, beq_iff_eq]
      intro hcon
      exact absurd hcon.1 (ne_of_lt (hlid l hlmem))
    rw [h1]
    simp [List.find?]
  have hbooks := return_book_success_books
    ({ st with
        loans := st.loans ++ [⟨st.nextLoanId, uid, bid, today, today + 14, none⟩],
        books := st.books.map (fun bk =>
          if bk.id == bid then
            { bk with available_copies := bk.available_copies - 1 }
          else bk),
        nextLoanId := st.nextLoanId + 1 })
    lidR today' st.nextLoanId ⟨st.nextLoanId, uid, bid, today, today + 14, none⟩
    hl' hl hfind
  simp only [getBook, hbooks]
  dsimp only
  have hdec : (st.books.map (fun bk =>
      if bk.id == bid then
        { bk with available_copies := bk.available_copies - 1 }
      else bk)).find? (fun b => b.id == bid) =
      some { book with available_copies := book.available_copies - 1 } :=
    find?_id_adjust_hit st.books Book.id
      (fun bk => { bk with available_copies := bk.available_copies - 1 })
      (fun bk => rfl) bid book hbk
  rw [find?_id_adjust_hit _ Book.id
    (fun bk => { bk with available_copies := bk.available_copies + 1 })
    (fun bk => rfl) bid _ hdec]
  congr 1
  cases book
  simp

theorem borrow_return_roundtrip_witness :
    getBook (return_book (borrow stTwo "1" "1" 100).1 "1" 120).1 1 =
      some ⟨1, "Dune", "Herbert", "111", 2, 2⟩ :=
  borrow_return_roundtrip stTwo "1" "1" "1" 1 1 100 120
    ⟨1, "Dune", "Herbert", "111", 2, 2⟩
    (by refine ⟨?_, ?_, ?_, ?_, ?_, ?_⟩ <;> decide)
    (by decide) (by decide) (by decide) (by decide) (by decide) (by decide)

/-! ### C10: no user-existence check in borrow -/

/-- C10: `borrow` never verifies that the user id exists: for a numeric
user id absent from the users table (book present, copy available, no
active duplicate), borrow succeeds, records a loan referencing the
nonexistent user, decrements `available_copies` — and the `/loans`
listing, whose query inner-joins loans to users, omits that loan. -/
theorem borrow_no_user_check (st : State) (uidR bidR : String)
    (uid bid today : Int) (book : Book) (hinv : DbInv st)
    (hu : parseInt (strip uidR) = some uid) (hb : parseInt (strip bidR) = some bid)
    (huser : ∀ u ∈ st.users, u.id ≠ uid)
    (hbk : getBook st bid = some book) (hav : 0 < book.available_copies)
    (hdup : findActivePair st uid bid = none) :
    (borrow st uidR bidR today).2 = .success (today + 14) ∧
    (⟨st.nextLoanId, uid, bid, today, today + 14, none⟩ : Loan) ∈
      (borrow st uidR bidR today).1.loans ∧
    getBook (borrow st uidR bidR today).1 bid =
      some { book with available_copies := book.available_copies - 1 } ∧
    (∀ t', ∀ v ∈ list_loans (borrow st uidR bidR today).1 t',
      v.id ≠ st.nextLoanId) := by
  obtain ⟨hbpw, hbid, hlpw, hlid, hlbk, hbal⟩ := hinv
  have hu' := strip_ne_empty_of_parseInt hu
  have hb' := strip_ne_empty_of_parseInt hb
  have hav' : ¬ book.available_copies ≤ 0 := not_le.mpr hav
  have key : borrow st uidR bidR today =
      ({ st with
          loans := st.loans ++ [⟨st.nextLoanId, uid, bid, today, today + 14, none⟩],
          books := st.books.map (fun bk =>
            if bk.id == bid then
              { bk with available_copies := bk.available_copies - 1 }
            else bk),
          nextLoanId := st.nextLoanId + 1 },
       .success (today + 14)) := by
    simp [borrow, hu', hb', hu, hb, hbk, hav', hdup]
  rw [key]
  dsimp only
  refine ⟨rfl, List.mem_append_right _ (List.mem_singleton.mpr rfl), ?_, ?_⟩
  · simp only [getBook]
    rw [find?_id_adjust_hit st.books Book.id
      (fun bk => { bk with available_copies := bk.available_copies - 1 })
      (fun bk => rfl) bid book hbk]
  · intro t' v hv
    simp only [list_loans] at hv
    rw [List.mem_insertionSort] at hv
    rcases List.mem_filterMap.mp hv with ⟨l0, hl0, hjoin⟩
    have hl0' := (List.mem_filter.mp hl0).1
    rcases List.mem_append.mp hl0' with hmem | hmem
    · have hvid : v.id = l0.id := by
        rcases hfu : List.find? (fun u => u.id == l0.user_id) st.users with _ | u
        · rw [hfu] at hjoin
          simp at hjoin
        · rcases hfb : List.find? (fun b => b.id == l0.book_id)
              (st.books.map (fun bk =>
                if bk.id == bid then
                  { bk with available_copies := bk.available_copies - 1 }
                else bk)) with _ | b
          · rw [hfu, hfb] at hjoin
            simp at hjoin
          · rw [hfu, hfb] at hjoin
            simp only [Option.some.injEq] at hjoin
            rw [← hjoin]
      rw [hvid]
      exact ne_of_lt (hlid l0 hmem)
    · rcases List.mem_singleton.mp hmem with rfl
      have hfu : List.find?
          (fun u => u.id == (⟨st.nextLoanId, uid, bid, today, today + 14,
            none⟩ : Loan).user_id) st.users = none := by
        rw [List.find?_eq_none]
        intro u hum
        simp [huser u hum]
      rw [hfu] at hjoin
      simp at hjoin

theorem borrow_no_user_check_witness :
    (borrow stTwo "7" "1" 100).2 = .success 114 ∧
    (⟨1, 7, 1, 100, 114, none⟩ : Loan) ∈ (borrow stTwo "7" "1" 100).1.loans ∧
    (∀ v ∈ list_loans (borrow stTwo "7" "1" 100).1 120, v.id ≠ 1) := by
  have h := borrow_no_user_check stTwo "7" "1" 7 1 100
    ⟨1, "Dune", "Herbert", "111", 2, 2⟩
    (by refine ⟨?_, ?_, ?_, ?_, ?_, ?_⟩ <;> decide)
    (by decide) (by decide) (by decide)
    (by decide) (by decide) (by decide)
  exact ⟨h.1, h.2.1, h.2.2.2 120⟩

/-! ### C9: list_books -/

theorem lexLE_total (a b : List Char) : lexLE a b = true ∨ lexLE b a = true := by
  induction a generalizing b with
  | nil => left; rfl
  | cons x xs ih =>
    cases b with
    | nil => right; rfl
    | cons y ys =>
      simp only [lexLE, Bool.or_eq_true, Bool.and_eq_true, decide_eq_true_eq]
      rcases Nat.lt_trichotomy x.toNat y.toNat with h | h | h
      · exact Or.inl (Or.inl h)
      · rcases ih ys with h2 | h2
        · exact Or.inl (Or.inr ⟨h, h2⟩)
        · exact Or.inr (Or.inr ⟨h.symm, h2⟩)
      · exact Or.inr (Or.inl h)

theorem lexLE_trans (a b c : List Char) (h1 : lexLE a b = true)
    (h2 : lexLE b c = true) : lexLE a c = true := by
  induction a generalizing b c with
  | nil => rfl
  | cons x xs ih =>
    cases b with
    | nil => cases h1
    | cons y ys =>
      cases c with
      | nil => cases h2
      | cons z zs =>
        simp only [lexLE, Bool.or_eq_true, Bool.and_eq_true,
          decide_eq_true_eq] at h1 h2 ⊢
        rcases h1 with h1 | ⟨h1e, h1r⟩
        · rcases h2 with h2 | ⟨h2e, h2r⟩
          · exact Or.inl (Nat.lt_trans h1 h2)
          · exact Or.inl (h2e ▸ h1)
        · rcases h2 with h2 | ⟨h2e, h2r⟩
          · exact Or.inl (h1e ▸ h2)
          · exact Or.inr ⟨h1e.trans h2e, ih ys zs h1r h2r⟩

instance : IsTotal Book titleOrder :=
  ⟨fun a b => lexLE_total (lowerList a.title) (lowerList b.title)⟩

instance : IsTrans Book titleOrder :=
  ⟨fun a b c => lexLE_trans (lowerList a.title) (lowerList b.title)
    (lowerList c.title)⟩

instance : IsTotal Book availOrder := by
  constructor
  intro a b
  rcases Int.lt_trichotomy a.available_copies b.available_copies with h | h | h
  · exact Or.inr (Or.inl h)
  · rcases lexLE_total (lowerList a.title) (lowerList b.title) with h2 | h2
    · exact Or.inl (Or.inr ⟨h, h2⟩)
    · exact Or.inr (Or.inr ⟨h.symm, h2⟩)
  · exact Or.inl (Or.inl h)

instance : IsTrans Book availOrder := by
  constructor
  intro a b c h1 h2
  rcases h1 with h1 | ⟨h1e, h1t⟩
  · rcases h2 with h2 | ⟨h2e, h2t⟩
    · exact Or.inl (Int.lt_trans h2 h1)
    · exact Or.inl (h2e ▸ h1)
  · rcases h2 with h2 | ⟨h2e, h2t⟩
    · exact Or.inl (h1e ▸ h2)
    · exact Or.inr ⟨h1e.trans h2e, lexLE_trans _ _ _ h1t h2t⟩

/-- Does a list start with the given (already lower-cased) list? -/
def startsWithList : List Char → List Char → Bool
  | [], _ => true
  | _ :: _, [] => false
  | a :: as, b :: bs => a == b && startsWithList as bs

/-- The spec's search predicate, written from the spec's words: the
lower-cased needle occurs in the lower-cased haystack as an unanchored
contiguous substring (some suffix of the haystack starts with it). -/
def substrCI (hay needle : String) : Bool :=
  ((lowerList hay).tails).any (fun t => startsWithList (lowerList needle) t)

/-- The search text contains none of SQL `LIKE`'s wildcard characters. -/
def noWildcards (s : String) : Bool :=
  s.toList.all (fun c => !(c == '%') && !(c == '_'))

theorem tails_any_isEmpty (s : List Char) :
    s.tails.any (fun t => t.isEmpty) = true := by
  induction s with
  | nil => rfl
  | cons a as ih => simp [List.tails_cons, ih]

theorem likeMatch_pct (ps s : List Char) :
    likeMatch ('%' :: ps) s = s.tails.any (fun t => likeMatch ps t) := by
  simp [likeMatch]

theorem likeMatch_plain_pct (p : List Char)
    (hp : ∀ c ∈ p, c ≠ '%' ∧ c ≠ '_') :
    ∀ s : List Char, likeMatch (p ++ ['%']) s = startsWithList p s := by
  induction p with
  | nil =>
    intro s
    show likeMatch ['%'] s = true
    rw [likeMatch_pct]
    have : ∀ t : List Char, likeMatch [] t = t.isEmpty := fun t => rfl
    simp only [this]
    exact tails_any_isEmpty s
  | cons c p ih =>
    intro s
    have hc := hp c (List.mem_cons_self c p)
    have hrest : ∀ c' ∈ p, c' ≠ '%' ∧ c' ≠ '_' :=
      fun c' hc' => hp c' (List.mem_cons_of_mem c hc')
    cases s with
    | nil => simp [likeMatch, startsWithList, hc.1]
    | cons d s' =>
      simp only [List.cons_append, likeMatch, startsWithList,
        if_neg hc.1, if_neg hc.2]
      exact congrArg (fun x => c == d && x) (ih hrest s')

theorem likeMatch_plain (search : List Char)
    (hp : ∀ c ∈ search, c ≠ '%' ∧ c ≠ '_') (s : List Char) :
    likeMatch ('%' :: (search ++ ['%'])) s =
      s.tails.any (fun t => startsWithList search t) := by
  rw [likeMatch_pct]
  simp only [likeMatch_plain_pct search hp]

/-- A one-book database whose title `aXb` matches the `LIKE` pattern built
from the search text `a%b` without containing `a%b` as a substring. -/
def stLike : State :=
  ⟨[⟨1, "aXb", "Zed", "9", 1, 1⟩], [], [], 2, 1, 1⟩

/-- C9 counterexample: searching for `a%b` returns the book titled `aXb`
(SQL `LIKE` treats `%` as a wildcard), although neither its title nor its
author case-insensitively contains the search text `a%b` as a substring —
so the filter is not plain substring containment. -/
theorem list_books_search_cex :
    (⟨1, "aXb", "Zed", "9", 1, 1⟩ : Book) ∈ list_books stLike "title" "a%b" ∧
    substrCI "aXb" "a%b" = false ∧
    substrCI "Zed" "a%b" = false := by
  refine ⟨?_, by decide, by decide⟩
  show _ ∈ List.insertionSort titleOrder _
  rw [List.mem_insertionSort]
  decide

theorem toNat_ofNat_valid (n : Nat) (h1 : n < 55296) :
    (Char.ofNat n).toNat = n := by
  unfold Char.ofNat
  rw [dif_pos (Or.inl h1)]
  show (⟨⟨_⟩, _⟩ : Char).toNat = n
  simp [Char.toNat, UInt32.toNat]

theorem asciiLower_ne_wild (c : Char) (h1 : c ≠ '%') (h2 : c ≠ '_') :
    asciiLower c ≠ '%' ∧ asciiLower c ≠ '_' := by
  unfold asciiLower
  split
  · rename_i hr
    obtain ⟨hr1, hr2⟩ := hr
    refine ⟨fun he => ?_, fun he => ?_⟩
    · have h3 := congrArg Char.toNat he
      rw [toNat_ofNat_valid _ (by omega)] at h3
      have h4 : ('%' : Char).toNat = 37 := rfl
      omega
    · have h3 := congrArg Char.toNat he
      rw [toNat_ofNat_valid _ (by omega)] at h3
      have h4 : ('_' : Char).toNat = 95 := rfl
      omega
  · exact ⟨h1, h2⟩

theorem tails_any_true (s : List Char) :
    s.tails.any (fun _ => true) = true := by
  cases s <;> simp [List.tails_cons]

/-- C9 (amended): `list_books` returns a permutation of the books passing
the search filter — sorted by lower-cased title for `sort = "title"` and
for every unknown key (the silent fallback), and by `available_copies`
descending then title ascending for `sort = "available_copies"`.  The
filter keeps exactly the books whose lower-cased title or author matches
the SQL `LIKE` pattern `%searchText%` (so `%` and `_` in the search text
act as wildcards); for search text containing no wildcard characters this
is exactly case-insensitive unanchored substring containment. -/
theorem list_books_spec (st : State) (sortKey search : String) :
    (list_books st sortKey search).Perm
      (st.books.filter (matchesSearch (strip search))) ∧
    (sortKey = "available_copies" →
      (list_books st sortKey search).Pairwise availOrder) ∧
    (sortKey ≠ "available_copies" →
      (list_books st sortKey search).Pairwise titleOrder) ∧
    (sortKey ∉ (["title", "available_copies"] : List String) →
      list_books st sortKey search = list_books st "title" search) ∧
    (noWildcards (strip search) = true →
      ∀ b : Book, matchesSearch (strip search) b =
        (substrCI b.title (strip search) || substrCI b.author (strip search))) := by
  refine ⟨?_, fun hk => ?_, fun hk => ?_, fun hk => ?_, fun hw b => ?_⟩
  · by_cases hk : sortKey = "available_copies"
    · simp only [list_books, if_pos hk]
      exact List.perm_insertionSort availOrder _
    · simp only [list_books, if_neg hk]
      exact List.perm_insertionSort titleOrder _
  · simp only [list_books, if_pos hk]
    exact List.sorted_insertionSort availOrder _
  · simp only [list_books, if_neg hk]
    exact List.sorted_insertionSort titleOrder _
  · have hk' : sortKey ≠ "available_copies" := by
      intro he
      exact hk (by rw [he]; exact List.mem_cons_of_mem _ (List.mem_singleton.mpr rfl))
    simp only [list_books, if_neg hk']
    rw [if_neg (by decide : ¬("title" : String) = "available_copies")]
  · by_cases hs : strip search = ""
    · rw [hs]
      have hz : lowerList "" = [] := rfl
      simp only [matchesSearch, if_pos rfl, substrCI, hz, startsWithList]
      rw [tails_any_true, tails_any_true]
      rfl
    · have hlow : ∀ c ∈ lowerList (strip search), c ≠ '%' ∧ c ≠ '_' := by
        intro c hc
        rcases List.mem_map.mp hc with ⟨c0, hc0, rfl⟩
        have := List.all_eq_true.mp hw c0 hc0
        simp only [Bool.and_eq_true, Bool.not_eq_true', beq_eq_false_iff_ne] at this
        exact asciiLower_ne_wild c0 this.1 this.2
      simp only [matchesSearch, if_neg hs, substrCI]
      rw [likeMatch_plain _ hlow, likeMatch_plain _ hlow]

/-- A two-book database for exercising the sorted listing. -/
def stBooks : State :=
  ⟨[⟨1, "Beta", "X", "b1", 1, 1⟩, ⟨2, "alpha", "Y", "b2", 3, 2⟩], [], [], 3, 1, 1⟩

theorem list_books_spec_witness :
    (list_books stBooks "weird" "a").Pairwise titleOrder ∧
    list_books stBooks "weird" "a" = list_books stBooks "title" "a" ∧
    matchesSearch (strip "a") (⟨1, "Beta", "X", "b1", 1, 1⟩ : Book) =
      (substrCI "Beta" (strip "a") || substrCI "X" (strip "a")) :=
  ⟨(list_books_spec stBooks "weird" "a").2.2.1 (by decide),
   (list_books_spec stBooks "weird" "a").2.2.2.1 (by decide),
   (list_books_spec stBooks "weird" "a").2.2.2.2 (by decide)
     ⟨1, "Beta", "X", "b1", 1, 1⟩⟩
